import Mathlib

/-!
Verification development for the marathon training-plan tracker.

Text is modelled as `List Char` (the value of a JS string).  Calendar dates
are modelled as day numbers (days since 1970-01-01, the UTC timeline of the
JS `Date` values the code builds from ISO `YYYY-MM-DD` strings; the embedding
fixes the environment's clock offset at zero).  Fallible operations return
`Option`.  Every definition is translated from the source files
`src/unnamed/part_001` (the current revision) unless its doc comment says
otherwise.
-/

/-! ### Character and string utilities -/

/-- The `{` character, written via its code point. -/
def lbrace : Char := Char.ofNat 123

/-- The `}` character, written via its code point. -/
def rbrace : Char := Char.ofNat 125

/-- The backtick character, written via its code point. -/
def btick : Char := Char.ofNat 96

/-- Whitespace as recognised by `JSON.parse` and (for the characters the
program actually produces) by `String.prototype.trim`. -/
def isWs (c : Char) : Bool :=
  c = ' ' || c = '\t' || c = '\n' || c = '\r'

/-- Leading-whitespace removal (the `\s*` steps of the source's regexes). -/
def skipWs (cs : List Char) : List Char := cs.dropWhile isWs

/-- `String.prototype.trim`: drop whitespace from both ends. -/
def trimStr (cs : List Char) : List Char :=
  ((cs.dropWhile isWs).reverse.dropWhile isWs).reverse

/-- Index of the first suffix position satisfying `p`, scanning left to
right; the search engine behind the source's `String.replace` and
`String.match` calls on literal patterns. -/
def findPos (p : List Char → Bool) : List Char → Option Nat
  | [] => none
  | c :: t => if p (c :: t) then some 0 else (findPos p t).map (· + 1)

/-- Index of the first occurrence of `needle` in `hay` (JS `indexOf`). -/
def firstIdx (needle hay : List Char) : Option Nat :=
  findPos (fun s => needle.isPrefixOf s) hay

/-- `String.prototype.replace` with a plain-string pattern: replace the
first occurrence of `pat` with the empty string. -/
def removeFirst (s pat : List Char) : List Char :=
  match firstIdx pat s with
  | some i => s.take i ++ s.drop (i + pat.length)
  | none => s

/-! ### JSON values and `JSON.parse` -/

/-- A parsed JSON value.  Numbers are exact rationals (the embedding's
reading of JS numbers; no claim in this development depends on binary
floating-point rounding). -/
inductive Json where
  | null : Json
  | bool (b : Bool) : Json
  | num (q : ℚ) : Json
  | str (s : List Char) : Json
  | arr (elems : List Json) : Json
  | obj (members : List (List Char × Json)) : Json

/-- Numeric value of a decimal-digit character list. -/
def digitsToNat (ds : List Char) : Nat :=
  ds.foldl (fun n c => 10 * n + (c.toNat - 48)) 0

/-- Value of one hexadecimal digit, for `\u` escapes. -/
def hexVal (c : Char) : Option Nat :=
  if c.isDigit then some (c.toNat - 48)
  else if 'a' ≤ c ∧ c ≤ 'f' then some (c.toNat - 87)
  else if 'A' ≤ c ∧ c ≤ 'F' then some (c.toNat - 55)
  else none

/-- Single-character JSON escapes. -/
def escChar (c : Char) : Option Char :=
  if c = '\"' then some '\"'
  else if c = '\\' then some '\\'
  else if c = '/' then some '/'
  else if c = 'b' then some (Char.ofNat 8)
  else if c = 'f' then some (Char.ofNat 12)
  else if c = 'n' then some '\n'
  else if c = 'r' then some '\r'
  else if c = 't' then some '\t'
  else none

/-- Body of a JSON string literal, after the opening quote.  Raw control
characters are rejected, as `JSON.parse` rejects them. -/
def parseStrRest : List Char → Option (List Char × List Char)
  | [] => none
  | c :: r =>
    if c = '\"' then some ([], r)
    else if c = '\\' then
      match r with
      | [] => none
      | e :: r2 =>
        match escChar e with
        | some ec => (parseStrRest r2).map (fun p => (ec :: p.1, p.2))
        | none =>
          if e = 'u' then
            match r2 with
            | h1 :: h2 :: h3 :: h4 :: r3 => do
              let a ← hexVal h1
              let b ← hexVal h2
              let c2 ← hexVal h3
              let d ← hexVal h4
              let p ← parseStrRest r3
              pure (Char.ofNat (4096 * a + 256 * b + 16 * c2 + d) :: p.1, p.2)
            | _ => none
          else none
    else if c.toNat < 32 then none
    else (parseStrRest r).map (fun p => (c :: p.1, p.2))

/-- Optional exponent part of a JSON number; `some (0, cs)` when absent. -/
def parseExp : List Char → Option (Int × List Char)
  | [] => some (0, [])
  | c :: r =>
    if c = 'e' ∨ c = 'E' then
      let sr : Int × List Char :=
        match r with
        | s :: rr => if s = '+' then (1, rr) else if s = '-' then (-1, rr) else (1, r)
        | [] => (1, r)
      let ds := sr.2.takeWhile Char.isDigit
      if ds.isEmpty then none
      else some (sr.1 * (digitsToNat ds : Int), sr.2.drop ds.length)
    else some (0, c :: r)

/-- A JSON number (optional minus, integer digits, optional fraction,
optional exponent). -/
def parseNum (cs : List Char) : Option (Json × List Char) :=
  let sgn : Bool × List Char :=
    match cs with
    | c :: r => if c = '-' then (true, r) else (false, cs)
    | [] => (false, cs)
  let intDs := sgn.2.takeWhile Char.isDigit
  let cs2 := sgn.2.drop intDs.length
  if intDs.isEmpty then none
  else
    let frac : List Char × List Char :=
      match cs2 with
      | c :: r => if c = '.' then (r.takeWhile Char.isDigit, r.drop (r.takeWhile Char.isDigit).length) else ([], cs2)
      | [] => ([], cs2)
    let hadDot : Bool := match cs2 with | c :: _ => c = '.' | [] => false
    if hadDot && frac.1.isEmpty then none
    else
      match parseExp frac.2 with
      | none => none
      | some (e, cs4) =>
        let mant : ℚ := (digitsToNat intDs : ℚ) * 10 ^ frac.1.length + (digitsToNat frac.1 : ℚ)
        let q : ℚ := (if sgn.1 then -mant else mant) / 10 ^ frac.1.length * (10 : ℚ) ^ e
        some (Json.num q, cs4)

mutual

/-- One JSON value, fuel-bounded recursive descent (`JSON.parse`). -/
def parseVal : Nat → List Char → Option (Json × List Char)
  | 0, _ => none
  | f + 1, cs =>
    match skipWs cs with
    | [] => none
    | c :: rest =>
      if c = lbrace then
        match skipWs rest with
        | [] => none
        | c2 :: rest2 =>
          if c2 = rbrace then some (Json.obj [], rest2)
          else parseMembers f (c2 :: rest2)
      else if c = '[' then
        match skipWs rest with
        | ']' :: rest2 => some (Json.arr [], rest2)
        | rest2 => (parseElems f rest2).map (fun p => (Json.arr p.1, p.2))
      else if c = '\"' then
        (parseStrRest rest).map (fun p => (Json.str p.1, p.2))
      else if c = 't' then
        if "rue".data.isPrefixOf rest then some (Json.bool true, rest.drop 3) else none
      else if c = 'f' then
        if "alse".data.isPrefixOf rest then some (Json.bool false, rest.drop 4) else none
      else if c = 'n' then
        if "ull".data.isPrefixOf rest then some (Json.null, rest.drop 3) else none
      else parseNum (c :: rest)

/-- Comma-separated array elements up to the closing bracket. -/
def parseElems : Nat → List Char → Option (List Json × List Char)
  | 0, _ => none
  | f + 1, cs => do
    let (v, r1) ← parseVal f cs
    match skipWs r1 with
    | [] => none
    | c :: r2 =>
      if c = ',' then (parseElems f r2).map (fun p => (v :: p.1, p.2))
      else if c = ']' then some ([v], r2)
      else none

/-- Comma-separated object members up to the closing brace. -/
def parseMembers : Nat → List Char → Option (Json × List Char)
  | 0, _ => none
  | f + 1, cs =>
    match skipWs cs with
    | [] => none
    | c :: r1 =>
      if c = '\"' then do
        let (k, r2) ← parseStrRest r1
        match skipWs r2 with
        | [] => none
        | c2 :: r3 =>
          if c2 = ':' then do
            let (v, r4) ← parseVal f r3
            match skipWs r4 with
            | [] => none
            | c3 :: r5 =>
              if c3 = ',' then do
                let (restObj, r6) ← parseMembers f r5
                match restObj with
                | Json.obj kvs => some (Json.obj ((k, v) :: kvs), r6)
                | _ => none
              else if c3 = rbrace then some (Json.obj [(k, v)], r5)
              else none
          else none
      else none

end

/-- `JSON.parse`: one value, then nothing but trailing whitespace. -/
def jsonParse (cs : List Char) : Option Json :=
  match parseVal (2 * cs.length + 4) cs with
  | some (v, rest) => if (skipWs rest).isEmpty then some v else none
  | none => none

/-! ### Plan Generation Client (`generateTrainingPlan`) -/

/-- The code-fence prefix matched by the response cleaner's regex
alternative anchored at the start of the string. -/
def fenceLead : List Char := "```json".data

/-- Three backticks. -/
def fenceTicks : List Char := [btick, btick, btick]

/-- Does this suffix position begin the trailing-fence match, i.e. three
backticks followed by nothing but whitespace to the end of the string? -/
def fenceEndHere (cs : List Char) : Bool :=
  fenceTicks.isPrefixOf cs && (cs.drop 3).all isWs

/-- The response cleaner's global regex replace: remove a leading
code-fence marker (with its trailing whitespace run) if present, and
remove a trailing fence (three backticks followed only by whitespace). -/
def stripFence (s : List Char) : List Char :=
  let s1 := if fenceLead.isPrefixOf s then (s.drop 7).dropWhile isWs else s
  match findPos fenceEndHere s1 with
  | some i => s1.take i
  | none => s1

/-- Fence-strip, trim, `JSON.parse` — the text pipeline of
`generateTrainingPlan`'s response handling. -/
def parseGenerationText (t : List Char) : Option Json :=
  jsonParse (trimStr (stripFence t))

/-- Response handling of `generateTrainingPlan`: a non-ok HTTP status, an
absent (or empty, hence falsy) text field, and a text that fails parsing
all end in the `catch` that returns `null`; modelled as `none`. -/
def generateParse (ok : Bool) (text : Option (List Char)) : Option Json :=
  if ok then
    match text with
    | none => none
    | some t => if t.isEmpty then none else parseGenerationText t
  else none

/-- The generation-window computation of `generateTrainingPlan`, on day
numbers: the window start is `today` for an adjustment and the plan's
`startDate` otherwise; the end is four weeks later unless the race date
comes first. -/
def generationWindow (startDate raceDate today : Nat) (isAdjustment : Bool) : Nat × Nat :=
  let generationStartDate := if isAdjustment then today else startDate
  let fourWeeksLater := generationStartDate + 28
  let generationEndDate := if fourWeeksLater < raceDate then fourWeeksLater else raceDate
  (generationStartDate, generationEndDate)

/-! ### Date/Calendar utilities -/

/-- Day number (days since 1970-01-01) of a Gregorian civil date,
for dates from 1970 on. -/
def daysFromCivil (y m d : Nat) : Nat :=
  let y1 := if m ≤ 2 then y - 1 else y
  let era := y1 / 400
  let yoe := y1 % 400
  let doy := (153 * (if 2 < m then m - 3 else m + 9) + 2) / 5 + d - 1
  let doe := yoe * 365 + yoe / 4 - yoe / 100 + doy
  era * 146097 + doe - 719468

/-- Gregorian civil date `(year, month, day)` of a day number. -/
def civilFromDays (z : Nat) : Nat × Nat × Nat :=
  let z1 := z + 719468
  let era := z1 / 146097
  let doe := z1 % 146097
  let yoe := (doe + doe / 36524 - doe / 1460 - doe / 146096) / 365
  let y := yoe + era * 400
  let doy := doe - (365 * yoe + yoe / 4 - yoe / 100)
  let mp := (5 * doy + 2) / 153
  let d := doy - (153 * mp + 2) / 5 + 1
  let m := if mp < 10 then mp + 3 else mp - 9
  (if m ≤ 2 then y + 1 else y, m, d)

/-- Decimal digit character. -/
def digitChar (d : Nat) : Char := Char.ofNat (48 + d % 10)

/-- Four-digit zero-padded numeral (years). -/
def pad4 (n : Nat) : List Char :=
  [digitChar (n / 1000), digitChar (n / 100), digitChar (n / 10), digitChar n]

/-- Two-digit zero-padded numeral (months, days). -/
def pad2 (n : Nat) : List Char := [digitChar (n / 10), digitChar n]

/-- `dateToISO`: the `YYYY-MM-DD` part of `Date.prototype.toISOString`. -/
def dateToISO (z : Nat) : List Char :=
  let c := civilFromDays z
  pad4 c.1 ++ '-' :: pad2 c.2.1 ++ '-' :: pad2 c.2.2

/-- Loop body of `getDaysArray`: push the ISO form of each day while the
cursor has not passed `e`; the fuel equals the number of iterations. -/
def getDaysArrayAux : Nat → Nat → Nat → List (List Char)
  | 0, _, _ => []
  | f + 1, dt, e => if dt ≤ e then dateToISO dt :: getDaysArrayAux f (dt + 1) e else []

/-- `getDaysArray`: every calendar day from `s` to `e` inclusive, as ISO
date strings. -/
def getDaysArray (s e : Nat) : List (List Char) :=
  getDaysArrayAux (e + 1 - s) s e

/-! ### Chat-driven mutation protocol (`ChatModal.handleSend`) -/

/-- The literal delimiter token of the plan-update wire format. -/
def planDelim : List Char := "<<<PLAN_UPDATE>>>".data

/-- First match of the delimiter-pair regex: the start index of the first
delimiter occurrence and the start index of the next delimiter occurrence
after it (the non-greedy capture ends where the second delimiter begins). -/
def findDelimited (s : List Char) : Option (Nat × Nat) :=
  match firstIdx planDelim s with
  | none => none
  | some i0 =>
    match firstIdx planDelim (s.drop (i0 + 17)) with
    | none => none
    | some k => some (i0, i0 + 17 + k)

/-- The captured group: the text strictly between the two delimiters. -/
def innerOf (s : List Char) (i0 i1 : Nat) : List Char :=
  (s.drop (i0 + 17)).take (i1 - (i0 + 17))

/-- The whole regex match: both delimiters and the text between them. -/
def matchedBlock (s : List Char) (i0 i1 : Nat) : List Char :=
  (s.drop i0).take (i1 + 17 - i0)

/-- Annotation appended to the displayed reply after a successful update. -/
def successMsg : List Char := "\n\n??**Plan Updated!**".data

/-- Annotation appended to the reply when the embedded block fails to parse. -/
def techErrMsg : List Char := "\n\n(Technical Error: Failed to apply plan update)".data

/-- The plan-update extraction of `handleSend`, given the assistant reply:
returns the reply text to display and the parsed mutation array (if one was
applied).  Mirrors the source: the block is processed only when the match
exists and its captured group is truthy (non-empty); a parse failure is
caught and annotated; a parsed non-array is ignored. -/
def processReply (reply : List Char) : List Char × Option (List Json) :=
  match findDelimited reply with
  | none => (reply, none)
  | some (i0, i1) =>
    let inner := innerOf reply i0 i1
    if inner.isEmpty then (reply, none)
    else
      match jsonParse (trimStr inner) with
      | some (Json.arr newPlan) =>
        (trimStr (removeFirst reply (matchedBlock reply i0 i1)) ++ successMsg, some newPlan)
      | some _ => (reply, none)
      | none => (reply ++ techErrMsg, none)

/-! ### Plan/Log store and the Merge Engine -/

/-- A document reference: the plan record of a plan, or one dated day log
in a plan's `days` sub-collection. -/
inductive DocRef where
  | plan (id : List Char) : DocRef
  | day (planId : List Char) (date : List Char) : DocRef
deriving DecidableEq

/-- The fields of a stored document: a partial map from field name to
JSON value. -/
def DocData : Type := List Char → Option Json

/-- The store's documents. -/
def Store : Type := DocRef → Option DocData

/-- A batched write operation. -/
inductive WriteOp where
  | setMerge (ref : DocRef) (data : DocData) : WriteOp
  | delete (ref : DocRef) : WriteOp

/-- The document a write operation addresses. -/
def opTarget : WriteOp → DocRef
  | WriteOp.setMerge ref _ => ref
  | WriteOp.delete ref => ref

/-- `setDoc(ref, data, { merge: true })` on one document: fields of the
incoming record win, every other stored field is kept; an absent document
is created from the incoming record alone. -/
def mergeSetDoc (old : Option DocData) (inc : DocData) : DocData :=
  fun f =>
    match inc f with
    | some v => some v
    | none =>
      match old with
      | some d => d f
      | none => none

/-- Apply one committed operation to the store. -/
def applyOp (st : Store) : WriteOp → Store
  | WriteOp.setMerge ref d => fun r => if r = ref then some (mergeSetDoc (st ref) d) else st r
  | WriteOp.delete ref => fun r => if r = ref then none else st r

/-- Apply a whole batch in order. -/
def applyBatch (st : Store) (b : List WriteOp) : Store := b.foldl applyOp st

/-- The store's atomic batch commit: an accepted batch applies entirely, a
rejected batch leaves the store exactly as it was. -/
def commitBatch (accepted : Bool) (st : Store) (b : List WriteOp) : Store :=
  if accepted then applyBatch st b else st

/-- A field of a stored document (`none` when the document or the field is
absent). -/
def docField (st : Store) (ref : DocRef) (f : List Char) : Option Json :=
  match st ref with
  | some d => d f
  | none => none

/-- JS property access `day.k` on a parsed JSON value: defined on objects
(later duplicate keys win, as in `JSON.parse`), `undefined` otherwise. -/
def getField (j : Json) (k : List Char) : Option Json :=
  match j with
  | Json.obj kvs => kvs.foldl (fun acc p => if p.1 = k then some p.2 else acc) none
  | _ => none

/-- JS truthiness of `day.k`. -/
def truthy (o : Option Json) : Bool :=
  match o with
  | none => false
  | some Json.null => false
  | some (Json.bool b) => b
  | some (Json.num q) => decide (q ≠ 0)
  | some (Json.str s) => !s.isEmpty
  | some (Json.arr _) => true
  | some (Json.obj _) => true

/-- The `date` field name. -/
def dateKey : List Char := "date".data

/-- The `plannedActivity` field name. -/
def paKey : List Char := "plannedActivity".data

/-- The document key `day.date` used for `doc(daysRef, day.date)`.  A
non-string path segment is rejected by the store client at run time; it is
modelled as the empty path, which no claim exercises. -/
def keyOf (day : Json) : List Char :=
  match getField day dateKey with
  | some (Json.str s) => s
  | _ => []

/-- The payload `{ ...day }` of the Adjust-Plan path: every field of the
proposed record. -/
def objDoc (day : Json) : DocData := fun f => getField day f

/-- The payload `{ date: day.date, plannedActivity: day.plannedActivity }`
of the chat path: exactly those two fields. -/
def chatDoc (day : Json) : DocData :=
  fun f =>
    if f = dateKey then getField day dateKey
    else if f = paKey then getField day paKey
    else none

/-- The guard `day.date && day.plannedActivity` of `handleChatUpdatePlan`. -/
def chatAccepts (day : Json) : Bool :=
  truthy (getField day dateKey) && truthy (getField day paKey)

/-- Batch built by `handleAdjustPlan` from a generated plan: one
merge-upsert per record, unconditionally. -/
def buildAdjustBatch (pid : List Char) (gen : List Json) : List WriteOp :=
  gen.foldl (fun b day => b ++ [WriteOp.setMerge (DocRef.day pid (keyOf day)) (objDoc day)]) []

/-- Batch built by `handleChatUpdatePlan` from a chat-proposed array: one
merge-upsert per record that has truthy `date` and `plannedActivity`;
other records add nothing. -/
def buildChatBatch (pid : List Char) (newDays : List Json) : List WriteOp :=
  newDays.foldl
    (fun b day =>
      if chatAccepts day then b ++ [WriteOp.setMerge (DocRef.day pid (keyOf day)) (chatDoc day)]
      else b)
    []

/-- Batch built by `handleDeletePlan`: a delete per currently-known day-log
key, then the plan record's delete, all in the one batch. -/
def buildDeletePlanBatch (pid : List Char) (dayKeys : List (List Char)) : List WriteOp :=
  dayKeys.foldl (fun b k => b ++ [WriteOp.delete (DocRef.day pid k)]) []
    ++ [WriteOp.delete (DocRef.plan pid)]

/-! ### Log form submit (`LogModal.handleSubmit`) -/

/-- One session row of the log form. -/
structure ActivityForm where
  actualDistance : List Char
  durationStr : List Char
  rpe : Nat
  feeling : List Char
deriving DecidableEq

/-- The day-log record written by `handleSaveLog` after a form submit. -/
structure SavedLog where
  activities : List ActivityForm
  coachFeedback : List Char
  actualDistance : List Char
  durationStr : List Char
  rpe : Nat
  feeling : List Char

/-- JS `parseFloat` on form input: optional leading whitespace and sign,
then a decimal numeral with optional fraction and exponent; `none` is
`NaN`. -/
def parseFloatQ (s : List Char) : Option ℚ :=
  let s1 := skipWs s
  let sgn : Bool × List Char :=
    match s1 with
    | c :: r => if c = '-' then (true, r) else if c = '+' then (false, r) else (false, s1)
    | [] => (false, s1)
  let intDs := sgn.2.takeWhile Char.isDigit
  let afterInt := sgn.2.drop intDs.length
  let frac : List Char :=
    match afterInt with
    | c :: r => if c = '.' then r.takeWhile Char.isDigit else []
    | [] => []
  if intDs.isEmpty && frac.isEmpty then none
  else
    let afterFrac :=
      match afterInt with
      | c :: r => if c = '.' then r.drop frac.length else afterInt
      | [] => afterInt
    let e : Int :=
      match parseExp afterFrac with
      | some (e0, _) => e0
      | none => 0
    let mant : ℚ := (digitsToNat intDs : ℚ) * 10 ^ frac.length + (digitsToNat frac : ℚ)
    let q : ℚ := (if sgn.1 then -mant else mant) / 10 ^ frac.length * (10 : ℚ) ^ e
    some q

/-- `parseFloat(x) || 0`. -/
def toNum (s : List Char) : ℚ :=
  match parseFloatQ s with
  | some q => q
  | none => 0

/-- Digits of a natural number. -/
def natToCharsAux : Nat → Nat → List Char
  | 0, _ => []
  | f + 1, n => if n < 10 then [digitChar n] else natToCharsAux f (n / 10) ++ [digitChar n]

/-- Decimal numeral of a natural number. -/
def natToChars (n : Nat) : List Char := natToCharsAux (n + 1) n

/-- `Number.prototype.toFixed(1)` for the non-negative sums the submit
handler formats: round to one decimal place, halves up. -/
def toFixed1 (q : ℚ) : List Char :=
  let n := (q * 10 + 1 / 2).floor.toNat
  natToChars (n / 10) ++ '.' :: natToChars (n % 10)

/-- Placeholder for `activities[0]` on an empty list; the form always keeps
at least one session, so no claim evaluates it. -/
def defaultActivity : ActivityForm := ⟨[], [], 5, []⟩

/-- The `' | '` separator of the feeling summary. -/
def sepBar : List Char := " | ".data

/-- `LogModal.handleSubmit`: the record handed to `onSave`, with the legacy
mirror fields computed from the session rows. -/
def logSubmit (activities : List ActivityForm) (coachFeedback : List Char) : SavedLog :=
  let totalDist : ℚ := activities.foldl (fun acc a => acc + toNum a.actualDistance) 0
  let primary := activities.headD defaultActivity
  { activities := activities
    coachFeedback := coachFeedback
    actualDistance := if 0 < totalDist then toFixed1 totalDist else primary.actualDistance
    durationStr := primary.durationStr
    rpe := (activities.map (fun a => if a.rpe = 0 then 5 else a.rpe)).foldl max 0
    feeling := List.intercalate sepBar ((activities.map (fun a => a.feeling)).filter (fun s => !s.isEmpty)) }

/-- The derivation rule of the specification's data model: the sum of the
sessions' parsed distances. -/
def sumParsedDistances (activities : List ActivityForm) : ℚ :=
  (activities.map (fun a => toNum a.actualDistance)).sum

/-- The derivation rule of the specification's data model: the maximum RPE
across sessions (an unset RPE counts as the default 5). -/
def maxSessionRpe (activities : List ActivityForm) : Nat :=
  (activities.map (fun a => if a.rpe = 0 then 5 else a.rpe)).foldr max 0

/-- The derivation rule of the specification's data model: the sessions'
non-empty notes joined with the separator. -/
def joinedNotes (activities : List ActivityForm) : List Char :=
  List.intercalate sepBar ((activities.map (fun a => a.feeling)).filter (fun s => !s.isEmpty))

/-- The optionally-fenced response shape of the generation endpoint: the
code-fence opener, a newline, the JSON body, a newline, and the closing
backticks. -/
def fenceWrap (t : List Char) : List Char :=
  fenceLead ++ '\n' :: t ++ '\n' :: fenceTicks

/-! ### Concrete test data -/

/-- The specification's chat round-trip reply. -/
def exampleReply : List Char :=
  "Sure, updating.\n<<<PLAN_UPDATE>>>[\x7b\"date\":\"2025-03-01\",\"plannedActivity\":\"Rest\"\x7d]<<<PLAN_UPDATE>>>".data

/-- The mutation record embedded in `exampleReply`. -/
def exampleMutation : Json :=
  Json.obj [(dateKey, Json.str "2025-03-01".data), (paKey, Json.str "Rest".data)]

/-- A reply whose delimiter pair encloses an empty block. -/
def emptyBlockReply : List Char := "a<<<PLAN_UPDATE>>><<<PLAN_UPDATE>>>b".data

/-- A proposal list with one well-formed record and one record missing
`plannedActivity`. -/
def mixedProposal : List Json :=
  [Json.obj [(dateKey, Json.str "2025-01-01".data), (paKey, Json.str "Easy run".data)],
   Json.obj [(dateKey, Json.str "2025-01-02".data)]]

/-- The stored `activities` value of the specification's merge example. -/
def storedActivities : Json :=
  Json.arr [Json.obj [("actualDistance".data, Json.str "5".data), ("rpe".data, Json.num 6)]]

/-- The specification's existing day log
`{date:"2025-02-01", plannedActivity:"Easy", activities:[...]}`. -/
def storedEasyDay : DocData :=
  fun f =>
    if f = dateKey then some (Json.str "2025-02-01".data)
    else if f = paKey then some (Json.str "Easy".data)
    else if f = "activities".data then some storedActivities
    else none

/-- A store holding only that day log under plan `p1`. -/
def exampleStore : Store :=
  fun ref => if ref = DocRef.day "p1".data "2025-02-01".data then some storedEasyDay else none

/-- The specification's regeneration proposal
`{date:"2025-02-01", plannedActivity:"Tempo"}`. -/
def tempoProposal : Json :=
  Json.obj [(dateKey, Json.str "2025-02-01".data), (paKey, Json.str "Tempo".data)]

/-- A chat-proposed record carrying extra fields beyond `date` and
`plannedActivity`. -/
def extraFieldsDay : Json :=
  Json.obj [(dateKey, Json.str "2025-02-01".data), (paKey, Json.str "Tempo".data),
    ("activities".data, Json.arr []), ("rpe".data, Json.num 9),
    ("coachFeedback".data, Json.str "injected".data)]

/-- Two day-log keys for the deletion example. -/
def exampleDayKeys : List (List Char) := ["2025-02-01".data, "2025-02-02".data]

/-- Two logged sessions for the mirror-field example. -/
def exampleSessions : List ActivityForm :=
  [⟨"5".data, "50:00".data, 6, "good".data⟩, ⟨"2.5".data, [], 7, []⟩]

/-- Sessions whose distance strings do not parse as numbers. -/
def unparsedSessions : List ActivityForm :=
  [⟨"abc".data, [], 5, []⟩, ⟨"def".data, [], 5, []⟩]

/-! ### Helper lemmas: scanning -/

theorem findPos_sound {p : List Char → Bool} :
    ∀ {l : List Char} {i : Nat}, findPos p l = some i →
      p (l.drop i) = true ∧ ∀ j, j < i → p (l.drop j) = false := by
  intro l
  induction l with
  | nil => intro i h; simp [findPos] at h
  | cons c t ih =>
    intro i h
    by_cases hp : p (c :: t) = true
    · simp [findPos, hp] at h
      subst h
      exact ⟨hp, fun j hj => absurd hj (Nat.not_lt_zero j)⟩
    · simp [findPos, hp] at h
      obtain ⟨i', hi', rfl⟩ := h
      obtain ⟨h1, h2⟩ := ih hi'
      refine ⟨h1, ?_⟩
      intro j hj
      cases j with
      | zero => simpa using Bool.eq_false_iff.mpr hp
      | succ j' => exact h2 j' (Nat.lt_of_succ_lt_succ hj)

theorem findPos_complete {p : List Char → Bool} :
    ∀ {l : List Char} {j : Nat}, j < l.length → p (l.drop j) = true →
      ∃ i, findPos p l = some i ∧ i ≤ j := by
  intro l
  induction l with
  | nil => intro j hj _; simp at hj
  | cons c t ih =>
    intro j hj hp
    by_cases h0 : p (c :: t) = true
    · exact ⟨0, by simp [findPos, h0], Nat.zero_le j⟩
    · cases j with
      | zero => exact absurd hp h0
      | succ j' =>
        obtain ⟨i', hi', hle⟩ := ih (Nat.lt_of_succ_lt_succ hj) hp
        exact ⟨i' + 1, by simp [findPos, h0, hi'], Nat.succ_le_succ hle⟩

/-! ### Helper lemmas: trimming and fence stripping -/

theorem dropWhile_eq_self_head {p : Char → Bool} {c : Char} {t : List Char}
    (h : (c :: t).dropWhile p = c :: t) : p c = false := by
  by_cases hp : p c = true
  · have hlen := congrArg List.length h
    have hsub : (t.dropWhile p).length ≤ t.length :=
      (List.dropWhile_suffix p).length_le
    rw [List.dropWhile_cons, if_pos hp] at hlen
    simp at hlen
    omega
  · simpa using hp

theorem trimStr_append_nl {t : List Char} (hne : t ≠ [])
    (ht1 : t.dropWhile isWs = t) (ht2 : t.reverse.dropWhile isWs = t.reverse) :
    trimStr (t ++ ['\n']) = t := by
  obtain ⟨c, t', rfl⟩ := List.exists_cons_of_ne_nil hne
  have hc : isWs c = false := dropWhile_eq_self_head ht1
  unfold trimStr
  rw [List.cons_append, List.dropWhile_cons, if_neg (by simp [hc])]
  rw [show (c :: (t' ++ ['\n'])).reverse = '\n' :: (c :: t').reverse by simp]
  rw [List.dropWhile_cons, if_pos (by simp [isWs])]
  rw [ht2, List.reverse_reverse]

theorem trimStr_eq_self {t : List Char}
    (ht1 : t.dropWhile isWs = t) (ht2 : t.reverse.dropWhile isWs = t.reverse) :
    trimStr t = t := by
  unfold trimStr
  rw [ht1, ht2, List.reverse_reverse]

theorem stripFence_no_tick {t : List Char} (hbq : btick ∉ t) : stripFence t = t := by
  unfold stripFence
  have hlead : fenceLead.isPrefixOf t = false := by
    cases h : fenceLead.isPrefixOf t with
    | false => rfl
    | true =>
      obtain ⟨r, hr⟩ := List.isPrefixOf_iff_prefix.mp h
      exact absurd (hr ▸ List.mem_append_left r (by decide : btick ∈ fenceLead)) hbq
  have hend : findPos fenceEndHere t = none := by
    cases hfp : findPos fenceEndHere t with
    | none => rfl
    | some i =>
      have h1 := (findPos_sound hfp).1
      simp only [fenceEndHere, Bool.and_eq_true] at h1
      obtain ⟨r, hr⟩ := List.isPrefixOf_iff_prefix.mp h1.1
      have : btick ∈ t.drop i := by
        rw [← hr]; exact List.mem_append_left _ (by decide : btick ∈ fenceTicks)
      exact absurd ((List.drop_sublist i t).mem this) hbq
  rw [hlead]
  simp only [Bool.false_eq_true, if_false, hend]

theorem mem_of_getElem?_some {l : List Char} {i : Nat} {a : Char}
    (h : l[i]? = some a) : a ∈ l := by
  obtain ⟨hlt, he⟩ := List.getElem?_eq_some.mp h
  exact he ▸ List.getElem_mem hlt

theorem stripFence_fenceWrap {t : List Char} (hbq : btick ∉ t) (hne : t ≠ [])
    (ht1 : t.dropWhile isWs = t) :
    stripFence (fenceWrap t) = t ++ ['\n'] := by
  have hL : fenceWrap t = fenceLead ++ ('\n' :: t ++ '\n' :: fenceTicks) := by
    simp [fenceWrap]
  have hlead : fenceLead.isPrefixOf (fenceWrap t) = true := by
    rw [hL]; exact List.isPrefixOf_iff_prefix.mpr ⟨_, rfl⟩
  have hdrop7 : (fenceWrap t).drop 7 = '\n' :: t ++ '\n' :: fenceTicks := by
    rw [hL, show (7 : Nat) = fenceLead.length from rfl, List.drop_left]
  obtain ⟨c, t', rfl⟩ := List.exists_cons_of_ne_nil hne
  have hc : isWs c = false := dropWhile_eq_self_head ht1
  have hdw : ('\n' :: (c :: t') ++ '\n' :: fenceTicks).dropWhile isWs
      = (c :: t') ++ '\n' :: fenceTicks := by
    rw [List.cons_append, List.dropWhile_cons, if_pos (by decide)]
    rw [List.cons_append, List.dropWhile_cons, if_neg (by simp [hc])]
  set T := c :: t' with hT
  have hsplit : T ++ '\n' :: fenceTicks = (T ++ ['\n']) ++ fenceTicks := by simp
  have hfp : findPos fenceEndHere (T ++ '\n' :: fenceTicks) = some (T.length + 1) := by
    have hpj : fenceEndHere ((T ++ '\n' :: fenceTicks).drop (T.length + 1)) = true := by
      rw [hsplit, show T.length + 1 = (T ++ ['\n']).length by simp, List.drop_left]
      decide
    have hjlt : T.length + 1 < (T ++ '\n' :: fenceTicks).length := by
      simp [fenceTicks]
    obtain ⟨i, hi, hle⟩ := findPos_complete hjlt hpj
    have hp := (findPos_sound hi).1
    have hige : ¬ i < T.length + 1 := by
      intro hilt
      simp only [fenceEndHere, Bool.and_eq_true] at hp
      obtain ⟨r, hr⟩ := List.isPrefixOf_iff_prefix.mp hp.1
      have hgot : (T ++ '\n' :: fenceTicks)[i]? = some btick := by
        have h0 : ((T ++ '\n' :: fenceTicks).drop i)[0]? = some btick := by
          rw [← hr]; rfl
        rw [List.getElem?_drop] at h0
        simpa using h0
      rcases Nat.lt_or_ge i T.length with hlt | hge
      · rw [List.getElem?_append_left hlt] at hgot
        exact absurd (mem_of_getElem?_some hgot) hbq
      · have hieq : i = T.length := by omega
        rw [hieq, List.getElem?_append_right (Nat.le_refl _)] at hgot
        simp at hgot
        exact absurd hgot (by decide)
    have : i = T.length + 1 := Nat.le_antisymm hle (Nat.le_of_not_lt hige)
    exact this ▸ hi
  have htake : (T ++ '\n' :: fenceTicks).take (T.length + 1) = T ++ ['\n'] := by
    rw [hsplit, show T.length + 1 = (T ++ ['\n']).length by simp, List.take_left]
  unfold stripFence
  rw [hlead]
  simp only [if_true]
  rw [hdrop7, hdw, hfp]
  exact htake

/-! ### Helper lemmas: batches -/

theorem foldl_append_map {α : Type} (f : α → WriteOp) :
    ∀ (l : List α) (acc : List WriteOp),
      l.foldl (fun b x => b ++ [f x]) acc = acc ++ l.map f := by
  intro l
  induction l with
  | nil => intro acc; simp
  | cons x t ih => intro acc; simp [List.foldl_cons, ih]

theorem foldl_append_filter_map {α : Type} (p : α → Bool) (f : α → WriteOp) :
    ∀ (l : List α) (acc : List WriteOp),
      l.foldl (fun b x => if p x then b ++ [f x] else b) acc
        = acc ++ (l.filter p).map f := by
  intro l
  induction l with
  | nil => intro acc; simp
  | cons x t ih =>
    intro acc
    by_cases hp : p x = true
    · simp [List.foldl_cons, hp, ih]
    · simp only [Bool.not_eq_true] at hp
      simp [List.foldl_cons, hp, ih, List.filter_cons]

theorem applyBatch_append (st : Store) (b1 b2 : List WriteOp) :
    applyBatch st (b1 ++ b2) = applyBatch (applyBatch st b1) b2 :=
  List.foldl_append applyOp st b1 b2

theorem applyOp_untargeted (st : Store) (op : WriteOp) (ref : DocRef)
    (h : opTarget op ≠ ref) : applyOp st op ref = st ref := by
  cases op with
  | setMerge r d => simp only [opTarget] at h; simp [applyOp, Ne.symm h]
  | delete r => simp only [opTarget] at h; simp [applyOp, Ne.symm h]

theorem applyBatch_untargeted :
    ∀ (b : List WriteOp) (st : Store) (ref : DocRef),
      (∀ op ∈ b, opTarget op ≠ ref) → applyBatch st b ref = st ref := by
  intro b
  induction b with
  | nil => intro st ref _; rfl
  | cons op t ih =>
    intro st ref h
    have h1 : opTarget op ≠ ref := h op (List.mem_cons_self op t)
    have h2 : ∀ o ∈ t, opTarget o ≠ ref := fun o ho => h o (List.mem_cons_of_mem op ho)
    calc applyBatch st (op :: t) ref = applyBatch (applyOp st op) t ref := rfl
      _ = applyOp st op ref := ih (applyOp st op) ref h2
      _ = st ref := applyOp_untargeted st op ref h1

theorem batch_merge_at (st : Store) (l1 l2 : List WriteOp) (ref : DocRef) (d : DocData)
    (h1 : ∀ op ∈ l1, opTarget op ≠ ref) (h2 : ∀ op ∈ l2, opTarget op ≠ ref)
    (f : List Char) :
    docField (applyBatch st (l1 ++ WriteOp.setMerge ref d :: l2)) ref f
      = match d f with
        | some v => some v
        | none => docField st ref f := by
  have hb : applyBatch st (l1 ++ WriteOp.setMerge ref d :: l2)
      = applyBatch (applyOp (applyBatch st l1) (WriteOp.setMerge ref d)) l2 := by
    rw [applyBatch_append]; rfl
  have hmid : applyOp (applyBatch st l1) (WriteOp.setMerge ref d) ref
      = some (mergeSetDoc (applyBatch st l1 ref) d) := by
    simp [applyOp]
  have hout : applyBatch st (l1 ++ WriteOp.setMerge ref d :: l2) ref
      = some (mergeSetDoc (st ref) d) := by
    rw [hb, applyBatch_untargeted l2 _ ref h2, hmid, applyBatch_untargeted l1 st ref h1]
  rw [docField, hout]
  show mergeSetDoc (st ref) d f = _
  unfold mergeSetDoc docField
  cases d f with
  | some v => rfl
  | none => cases st ref <;> rfl

theorem applyBatch_deletes (refs : List DocRef) :
    ∀ (st : Store) (r : DocRef),
      applyBatch st (refs.map WriteOp.delete) r = if r ∈ refs then none else st r := by
  induction refs with
  | nil => intro st r; simp [applyBatch]
  | cons a t ih =>
    intro st r
    have step : applyBatch st ((a :: t).map WriteOp.delete)
        = applyBatch (applyOp st (WriteOp.delete a)) (t.map WriteOp.delete) := rfl
    rw [step, ih]
    by_cases hrt : r ∈ t
    · simp [hrt, List.mem_cons]
    · by_cases hra : r = a
      · simp [hra, hrt, applyOp, List.mem_cons]
      · simp [hrt, hra, applyOp, List.mem_cons]

/-! ### Helper lemmas: the delimiter block -/

theorem removeFirst_block {reply : List Char} {i0 i1 : Nat}
    (h : findDelimited reply = some (i0, i1)) :
    removeFirst reply (matchedBlock reply i0 i1) = reply.take i0 ++ reply.drop (i1 + 17) := by
  unfold findDelimited at h
  cases hf0 : firstIdx planDelim reply with
  | none => rw [hf0] at h; simp at h
  | some j0 =>
    rw [hf0] at h
    dsimp only [] at h
    cases hf1 : firstIdx planDelim (reply.drop (j0 + 17)) with
    | none => rw [hf1] at h; simp at h
    | some k =>
      rw [hf1] at h
      dsimp only [] at h
      simp only [Option.some.injEq, Prod.mk.injEq] at h
      obtain ⟨rfl, rfl⟩ := h
      have hA := (findPos_sound hf0).1
      have hmin := (findPos_sound hf0).2
      have hB := (findPos_sound hf1).1
      rw [List.drop_drop] at hB
      have hP0 : planDelim <+: reply.drop j0 := List.isPrefixOf_iff_prefix.mp hA
      have hP1 : planDelim <+: reply.drop (j0 + 17 + k) := List.isPrefixOf_iff_prefix.mp hB
      have hlen17 : planDelim.length = 17 := rfl
      have hlen1 : j0 + 17 + k + 17 ≤ reply.length := by
        have := hP1.length_le
        rw [List.length_drop, hlen17] at this
        omega
      set i1 := j0 + 17 + k with hi1
      have hblk_len : (matchedBlock reply j0 i1).length = i1 + 17 - j0 := by
        unfold matchedBlock
        rw [List.length_take, List.length_drop]
        omega
      have hD0eq : planDelim = (reply.drop j0).take 17 := by
        have := List.prefix_iff_eq_take.mp hP0
        rwa [hlen17] at this
      have hDblk : planDelim <+: matchedBlock reply j0 i1 := by
        rw [List.prefix_iff_eq_take, hlen17]
        unfold matchedBlock
        rw [List.take_take, Nat.min_eq_left (by omega)]
        exact hD0eq
      have hblk_pref : (matchedBlock reply j0 i1).isPrefixOf (reply.drop j0) = true :=
        List.isPrefixOf_iff_prefix.mpr (List.take_prefix _ _)
      have hi0lt : j0 < reply.length := by omega
      obtain ⟨i, hi, hle⟩ :=
        findPos_complete (p := fun s => (matchedBlock reply j0 i1).isPrefixOf s) hi0lt hblk_pref
      have hieq : i = j0 := by
        rcases Nat.lt_or_ge i j0 with hlt | hge
        · exfalso
          have hsou := (findPos_sound hi).1
          have hpre : planDelim.isPrefixOf (reply.drop i) = true :=
            List.isPrefixOf_iff_prefix.mpr
              (hDblk.trans (List.isPrefixOf_iff_prefix.mp hsou))
          have hcontra := hmin i hlt
          rw [hpre] at hcontra
          exact Bool.noConfusion hcontra
        · omega
      have harith : j0 + (i1 + 17 - j0) = i1 + 17 := by
        rw [hi1]; omega
      rw [hieq] at hi
      unfold removeFirst firstIdx
      rw [hi, hblk_len]
      dsimp only []
      rw [harith]

/-! ### Helper lemmas: date sequence, log folds, batch decomposition -/

set_option maxRecDepth 4000 in
theorem getDaysArrayAux_eq_range :
    ∀ (f s e : Nat), e + 1 - s = f →
      getDaysArrayAux f s e = (List.range f).map (fun i => dateToISO (s + i)) := by
  intro f
  induction f with
  | zero => intro s e _; rfl
  | succ f ih =>
    intro s e hf
    have hse : s ≤ e := by omega
    rw [getDaysArrayAux.eq_2]
    rw [if_pos hse]
    rw [ih (s + 1) e (by omega)]
    rw [List.range_succ_eq_map]
    simp only [List.map_cons, List.map_map, Nat.add_zero, Function.comp]
    rw [List.cons.injEq]
    refine ⟨rfl, ?_⟩
    apply List.map_congr_left
    intro i _
    exact congrArg dateToISO (by omega)

theorem foldl_add_toNum (l : List ActivityForm) :
    ∀ (q : ℚ), l.foldl (fun acc a => acc + toNum a.actualDistance) q
      = q + sumParsedDistances l := by
  induction l with
  | nil => intro q; simp [sumParsedDistances]
  | cons a t ih =>
    intro q
    rw [List.foldl_cons, ih]
    simp [sumParsedDistances, add_assoc]

theorem foldl_max_shift (l : List Nat) :
    ∀ (a : Nat), l.foldl max a = max a (l.foldr max 0) := by
  induction l with
  | nil => intro a; simp
  | cons x t ih =>
    intro a
    rw [List.foldl_cons, ih, List.foldr_cons, max_assoc]

theorem mem_nodup_key_split {l : List Json} {day : Json} (key : Json → List Char)
    (hmem : day ∈ l) (hnd : (l.map key).Nodup) :
    ∃ s t, l = s ++ day :: t ∧ key day ∉ s.map key ∧ key day ∉ t.map key := by
  obtain ⟨s, t, rfl⟩ := List.append_of_mem hmem
  rw [List.map_append, List.map_cons] at hnd
  obtain ⟨hs, ht, hdisj⟩ := List.nodup_append.mp hnd
  refine ⟨s, t, rfl, ?_, (List.nodup_cons.mp ht).1⟩
  intro hk
  exact (hdisj hk) (List.mem_cons_self _ _)

theorem chat_ops_frame (pid : List Char) (ref : DocRef) (f : List Char)
    (hf1 : f ≠ dateKey) (hf2 : f ≠ paKey) :
    ∀ (l : List Json) (st : Store),
      docField
        (applyBatch st
          (l.map (fun d => WriteOp.setMerge (DocRef.day pid (keyOf d)) (chatDoc d))))
        ref f = docField st ref f := by
  intro l
  induction l with
  | nil => intro st; rfl
  | cons d t ih =>
    intro st
    have step : applyBatch st (((d :: t).map
        (fun d => WriteOp.setMerge (DocRef.day pid (keyOf d)) (chatDoc d))))
        = applyBatch (applyOp st (WriteOp.setMerge (DocRef.day pid (keyOf d)) (chatDoc d)))
            (t.map (fun d => WriteOp.setMerge (DocRef.day pid (keyOf d)) (chatDoc d))) := rfl
    rw [step, ih]
    by_cases hr : ref = DocRef.day pid (keyOf d)
    · subst hr
      have happ : applyOp st (WriteOp.setMerge (DocRef.day pid (keyOf d)) (chatDoc d))
            (DocRef.day pid (keyOf d))
          = some (mergeSetDoc (st (DocRef.day pid (keyOf d))) (chatDoc d)) := by
        unfold applyOp
        dsimp only []
        rw [if_pos rfl]
      have hcd : chatDoc d f = none := by
        unfold chatDoc
        rw [if_neg hf1, if_neg hf2]
      unfold docField
      rw [happ]
      dsimp only []
      unfold mergeSetDoc
      rw [hcd]
    · unfold docField
      rw [applyOp_untargeted st _ ref (by simpa [opTarget] using Ne.symm hr)]

/-! ### Claim theorems -/

/-- C7: for every generation call, the requested window is
`[startDate, min(startDate+28d, raceDate)]` when `isAdjustment` is false and
`[today, min(today+28d, raceDate)]` when it is true; in particular
`startDate = 2025-01-01` with `raceDate = 2025-12-31` (non-adjustment)
requests window end `2025-01-29`, and `raceDate = 2025-01-10` requests
window end `2025-01-10`. -/
theorem generation_window_bounds :
    (∀ (startD raceD todayD : Nat) (adj : Bool),
      generationWindow startD raceD todayD adj
        = ((if adj then todayD else startD),
           min ((if adj then todayD else startD) + 28) raceD)) ∧
    generationWindow (daysFromCivil 2025 1 1) (daysFromCivil 2025 12 31) 0 false
      = (daysFromCivil 2025 1 1, daysFromCivil 2025 1 1 + 28) ∧
    dateToISO (daysFromCivil 2025 1 1 + 28) = "2025-01-29".data ∧
    generationWindow (daysFromCivil 2025 1 1) (daysFromCivil 2025 1 10) 0 false
      = (daysFromCivil 2025 1 1, daysFromCivil 2025 1 10) := by
  refine ⟨?_, by decide, by decide, by decide⟩
  intro startD raceD todayD adj
  unfold generationWindow
  dsimp only []
  rw [Prod.mk.injEq]
  refine ⟨rfl, ?_⟩
  rcases Nat.lt_or_ge ((if adj then todayD else startD) + 28) raceD with hlt | hge
  · rw [if_pos hlt, Nat.min_eq_left (Nat.le_of_lt hlt)]
  · rw [if_neg (Nat.not_lt.mpr hge), Nat.min_eq_right hge]

/-- C8: for every pair of calendar dates `s ≤ e`, `getDaysArray s e` is the
ordered inclusive sequence of the ISO forms of every calendar day from `s`
to `e`, stepping by exactly one day: it has length `e - s + 1` and its
`i`-th entry is the ISO form of day `s + i`. -/
theorem days_array_inclusive_sequence (s e : Nat) (h : s ≤ e) :
    (getDaysArray s e).length = e - s + 1 ∧
    ∀ i : Nat, (getDaysArray s e)[i]? =
      if i < e - s + 1 then some (dateToISO (s + i)) else none := by
  have hr : getDaysArray s e
      = (List.range (e - s + 1)).map (fun i => dateToISO (s + i)) := by
    unfold getDaysArray
    rw [show e + 1 - s = e - s + 1 by omega]
    exact getDaysArrayAux_eq_range (e - s + 1) s e (by omega)
  constructor
  · rw [hr, List.length_map, List.length_range]
  · intro i
    rw [hr, List.getElem?_map]
    by_cases hi : i < e - s + 1
    · rw [if_pos hi, List.getElem?_range hi]
      rfl
    · rw [if_neg hi]
      have hnone : (List.range (e - s + 1))[i]? = none := by
        apply List.getElem?_eq_none
        simpa using Nat.le_of_not_lt hi
      rw [hnone]
      rfl

/-- Witness for C8, at 2025-03-01 and the 90 days after it (a window
crossing two month boundaries): 91 dates, starting 2025-03-01 and ending
2025-05-30, and the one-day degenerate range yields exactly that day. -/
theorem days_array_inclusive_sequence_witness :
    daysFromCivil 2025 3 1 ≤ daysFromCivil 2025 3 1 + 90 ∧
    (getDaysArray (daysFromCivil 2025 3 1) (daysFromCivil 2025 3 1 + 90)).length = 91 ∧
    (getDaysArray (daysFromCivil 2025 3 1) (daysFromCivil 2025 3 1 + 90))[0]?
      = some "2025-03-01".data ∧
    (getDaysArray (daysFromCivil 2025 3 1) (daysFromCivil 2025 3 1 + 90))[90]?
      = some "2025-05-30".data ∧
    getDaysArray (daysFromCivil 2025 3 1) (daysFromCivil 2025 3 1)
      = ["2025-03-01".data] := by
  have h := days_array_inclusive_sequence (daysFromCivil 2025 3 1)
    (daysFromCivil 2025 3 1 + 90) (Nat.le_add_right _ _)
  refine ⟨Nat.le_add_right _ _, h.1.trans (by omega), ?_, ?_, by decide⟩
  · have h0 := h.2 0
    rw [if_pos (by omega)] at h0
    exact h0.trans (by decide)
  · have h90 := h.2 90
    rw [if_pos (by omega)] at h90
    exact h90.trans (by decide)

/-- C5: the plan-generation client returns `null` (never throws) when the
HTTP status is non-success, when the response text field is absent or
empty, and when the text fails JSON parsing after fence-stripping; in
particular the response text `"not json"` yields `null`. -/
theorem generation_failure_returns_null :
    (∀ text, generateParse false text = none) ∧
    generateParse true none = none ∧
    (∀ t : List Char, jsonParse (trimStr (stripFence t)) = none →
      generateParse true (some t) = none) := by
  refine ⟨fun text => rfl, rfl, ?_⟩
  intro t hp
  by_cases he : t.isEmpty
  · simp [generateParse, he]
  · simp [generateParse, he, parseGenerationText, hp]

/-- Witness for C5: the response text `"not json"` yields `null`. -/
theorem generation_failure_returns_null_witness :
    generateParse true (some "not json".data) = none :=
  generation_failure_returns_null.2.2 "not json".data rfl

/-- C6: for every response text that is a JSON array (no stray backticks,
already trimmed), the plan-generation client parses it into the same
record list whether or not it is wrapped in the leading/trailing code-fence
marker. -/
theorem fenced_json_array_parse (t : List Char) (l : List Json)
    (hbq : btick ∉ t)
    (ht1 : t.dropWhile isWs = t) (ht2 : t.reverse.dropWhile isWs = t.reverse)
    (hparse : jsonParse t = some (Json.arr l)) :
    parseGenerationText (fenceWrap t) = some (Json.arr l) ∧
    parseGenerationText t = some (Json.arr l) := by
  have hne : t ≠ [] := by
    intro h0
    subst h0
    have hnil : jsonParse ([] : List Char) = none := rfl
    rw [hnil] at hparse
    exact Option.noConfusion hparse
  constructor
  · unfold parseGenerationText
    rw [stripFence_fenceWrap hbq hne ht1, trimStr_append_nl hne ht1 ht2, hparse]
  · unfold parseGenerationText
    rw [stripFence_no_tick hbq, trimStr_eq_self ht1 ht2, hparse]

/-- Witness for C6: the specification's fenced text yields exactly one
record with `date = "2025-01-01"`. -/
theorem fenced_json_array_parse_witness :
    parseGenerationText
        "```json\n[\x7b\"date\":\"2025-01-01\",\"plannedActivity\":\"Easy 5k\"\x7d]\n```".data
      = some (Json.arr [Json.obj [("date".data, Json.str "2025-01-01".data),
          ("plannedActivity".data, Json.str "Easy 5k".data)]]) := by
  have h := fenced_json_array_parse
    "[\x7b\"date\":\"2025-01-01\",\"plannedActivity\":\"Easy 5k\"\x7d]".data
    [Json.obj [("date".data, Json.str "2025-01-01".data),
      ("plannedActivity".data, Json.str "Easy 5k".data)]]
    (by decide) rfl rfl rfl
  have heq : fenceWrap "[\x7b\"date\":\"2025-01-01\",\"plannedActivity\":\"Easy 5k\"\x7d]".data
      = "```json\n[\x7b\"date\":\"2025-01-01\",\"plannedActivity\":\"Easy 5k\"\x7d]\n```".data := rfl
  exact heq ▸ h.1

/-- C3 (amended): on the chat mutation path, a record whose `date` or
`plannedActivity` is missing or otherwise falsy contributes no upsert while
the remaining records are all applied — the batch is exactly the filtered
list's upserts, and the specification's two-record list yields exactly one
upsert; the adjustment path, by contrast, issues one upsert per record
without this validation. -/
theorem proposal_record_validation :
    (∀ (pid : List Char) (newDays : List Json),
      buildChatBatch pid newDays
        = (newDays.filter chatAccepts).map
            (fun d => WriteOp.setMerge (DocRef.day pid (keyOf d)) (chatDoc d)) ∧
      (buildChatBatch pid newDays).length = (newDays.filter chatAccepts).length) ∧
    (∀ (pid : List Char) (gen : List Json),
      (buildAdjustBatch pid gen).length = gen.length) ∧
    (buildChatBatch "p1".data mixedProposal).length = 1 := by
  have hchat : ∀ (pid : List Char) (newDays : List Json),
      buildChatBatch pid newDays
        = (newDays.filter chatAccepts).map
            (fun d => WriteOp.setMerge (DocRef.day pid (keyOf d)) (chatDoc d)) := by
    intro pid newDays
    unfold buildChatBatch
    rw [foldl_append_filter_map chatAccepts
      (fun d => WriteOp.setMerge (DocRef.day pid (keyOf d)) (chatDoc d)) newDays []]
    rw [List.nil_append]
  refine ⟨fun pid newDays => ⟨hchat pid newDays, ?_⟩, fun pid gen => ?_, by decide⟩
  · rw [hchat pid newDays, List.length_map]
  · unfold buildAdjustBatch
    rw [foldl_append_map
      (fun day => WriteOp.setMerge (DocRef.day pid (keyOf day)) (objDoc day)) gen []]
    rw [List.nil_append, List.length_map]

/-- Counterexample to C3 as stated: handed the specification's two-record
list (one well-formed record, one record missing `plannedActivity`), the
adjustment/generation apply step issues two upsert operations, not one —
it performs no validation at all. -/
theorem adjust_path_applies_invalid_records :
    (buildAdjustBatch "p1".data mixedProposal).length = 2 ∧
    (buildAdjustBatch "p1".data mixedProposal).length ≠ 1 := by
  exact ⟨by decide, by decide⟩

/-- C4: deleting a plan with `N` currently-known day logs builds exactly
`N + 1` delete operations in one batch; a rejected batch leaves the store
untouched, and an accepted one removes the plan record and every listed
day log while leaving every other document unchanged. -/
theorem delete_plan_cascade (st : Store) (pid : List Char)
    (dayKeys : List (List Char)) :
    (buildDeletePlanBatch pid dayKeys).length = dayKeys.length + 1 ∧
    commitBatch false st (buildDeletePlanBatch pid dayKeys) = st ∧
    applyBatch st (buildDeletePlanBatch pid dayKeys) (DocRef.plan pid) = none ∧
    (∀ d ∈ dayKeys,
      applyBatch st (buildDeletePlanBatch pid dayKeys) (DocRef.day pid d) = none) ∧
    (∀ ref : DocRef, ref ≠ DocRef.plan pid →
      (∀ d ∈ dayKeys, ref ≠ DocRef.day pid d) →
      applyBatch st (buildDeletePlanBatch pid dayKeys) ref = st ref) := by
  have hb : buildDeletePlanBatch pid dayKeys
      = (dayKeys.map (DocRef.day pid)).map WriteOp.delete
        ++ [WriteOp.delete (DocRef.plan pid)] := by
    unfold buildDeletePlanBatch
    rw [foldl_append_map (fun k => WriteOp.delete (DocRef.day pid k)) dayKeys []]
    rw [List.nil_append, List.map_map]
    rfl
  have happly : ∀ r : DocRef,
      applyBatch st (buildDeletePlanBatch pid dayKeys) r
        = if r = DocRef.plan pid then none
          else if r ∈ dayKeys.map (DocRef.day pid) then none else st r := by
    intro r
    rw [hb, applyBatch_append]
    show applyOp (applyBatch st ((dayKeys.map (DocRef.day pid)).map WriteOp.delete))
        (WriteOp.delete (DocRef.plan pid)) r = _
    unfold applyOp
    dsimp only []
    by_cases hp : r = DocRef.plan pid
    · rw [if_pos hp, if_pos hp]
    · rw [if_neg hp, if_neg hp, applyBatch_deletes]
  refine ⟨?_, ?_, ?_, ?_, ?_⟩
  · rw [hb]
    simp
  · simp [commitBatch]
  · rw [happly, if_pos rfl]
  · intro d hd
    rw [happly, if_neg (by simp), if_pos (List.mem_map_of_mem _ hd)]
  · intro ref h1 h2
    rw [happly, if_neg h1, if_neg ?_]
    intro hm
    obtain ⟨d, hd, rfl⟩ := List.mem_map.mp hm
    exact h2 d hd rfl

/-- Witness for C4: two day logs yield three deletes in one batch, a
rejected commit changes nothing, and an accepted one removes the plan
record and a day log. -/
theorem delete_plan_cascade_witness :
    (buildDeletePlanBatch "p1".data exampleDayKeys).length = 3 ∧
    commitBatch false exampleStore (buildDeletePlanBatch "p1".data exampleDayKeys)
      = exampleStore ∧
    applyBatch exampleStore (buildDeletePlanBatch "p1".data exampleDayKeys)
      (DocRef.plan "p1".data) = none ∧
    applyBatch exampleStore (buildDeletePlanBatch "p1".data exampleDayKeys)
      (DocRef.day "p1".data "2025-02-01".data) = none := by
  have h := delete_plan_cascade exampleStore "p1".data exampleDayKeys
  exact ⟨h.1.trans (by decide), h.2.1, h.2.2.1, h.2.2.2.1 "2025-02-01".data (by decide)⟩

theorem merged_map_effect (st : Store) (pid : List Char) (l : List Json) (day : Json)
    (payload : Json → DocData)
    (hmem : day ∈ l) (hnd : (l.map keyOf).Nodup) (f : List Char) :
    docField
      (applyBatch st
        (l.map (fun d => WriteOp.setMerge (DocRef.day pid (keyOf d)) (payload d))))
      (DocRef.day pid (keyOf day)) f
      = match payload day f with
        | some v => some v
        | none => docField st (DocRef.day pid (keyOf day)) f := by
  obtain ⟨s, t, rfl, hks, hkt⟩ := mem_nodup_key_split keyOf hmem hnd
  rw [List.map_append, List.map_cons]
  apply batch_merge_at
  · intro op hop
    obtain ⟨d, hd, rfl⟩ := List.mem_map.mp hop
    simp only [opTarget]
    intro heq
    rw [DocRef.day.injEq] at heq
    exact hks (heq.2 ▸ List.mem_map_of_mem keyOf hd)
  · intro op hop
    obtain ⟨d, hd, rfl⟩ := List.mem_map.mp hop
    simp only [opTarget]
    intro heq
    rw [DocRef.day.injEq] at heq
    exact hkt (heq.2 ▸ List.mem_map_of_mem keyOf hd)

/-- C1: every batched plan update applied by the Merge Engine — the
Adjust-Plan regeneration and the chat-proposed mutation — is a merge-upsert,
never a full overwrite: for the date a record writes, every stored field
absent from the incoming payload is unchanged after the batch, while
`plannedActivity` takes the incoming value.  (One record per date, as the
Merge Engine's inputs provide.) -/
theorem merge_upsert_preserves_stored_fields :
    (∀ (st : Store) (pid : List Char) (gen : List Json) (day : Json),
      day ∈ gen → (gen.map keyOf).Nodup →
      (∀ f : List Char, objDoc day f = none →
        docField (applyBatch st (buildAdjustBatch pid gen)) (DocRef.day pid (keyOf day)) f
          = docField st (DocRef.day pid (keyOf day)) f) ∧
      (∀ v : Json, objDoc day paKey = some v →
        docField (applyBatch st (buildAdjustBatch pid gen)) (DocRef.day pid (keyOf day)) paKey
          = some v)) ∧
    (∀ (st : Store) (pid : List Char) (newDays : List Json) (day : Json),
      day ∈ newDays.filter chatAccepts → ((newDays.filter chatAccepts).map keyOf).Nodup →
      (∀ f : List Char, chatDoc day f = none →
        docField (applyBatch st (buildChatBatch pid newDays)) (DocRef.day pid (keyOf day)) f
          = docField st (DocRef.day pid (keyOf day)) f) ∧
      (∀ v : Json, chatDoc day paKey = some v →
        docField (applyBatch st (buildChatBatch pid newDays)) (DocRef.day pid (keyOf day)) paKey
          = some v)) := by
  constructor
  · intro st pid gen day hmem hnd
    have hb : buildAdjustBatch pid gen
        = gen.map (fun d => WriteOp.setMerge (DocRef.day pid (keyOf d)) (objDoc d)) := by
      unfold buildAdjustBatch
      rw [foldl_append_map (fun d => WriteOp.setMerge (DocRef.day pid (keyOf d)) (objDoc d)) gen []]
      rw [List.nil_append]
    constructor
    · intro f hf
      rw [hb]
      exact (merged_map_effect st pid gen day objDoc hmem hnd f).trans (by rw [hf])
    · intro v hv
      rw [hb]
      exact (merged_map_effect st pid gen day objDoc hmem hnd paKey).trans (by rw [hv])
  · intro st pid newDays day hmem hnd
    have hb : buildChatBatch pid newDays
        = (newDays.filter chatAccepts).map
            (fun d => WriteOp.setMerge (DocRef.day pid (keyOf d)) (chatDoc d)) := by
      unfold buildChatBatch
      rw [foldl_append_filter_map chatAccepts
        (fun d => WriteOp.setMerge (DocRef.day pid (keyOf d)) (chatDoc d)) newDays []]
      rw [List.nil_append]
    constructor
    · intro f hf
      rw [hb]
      exact (merged_map_effect st pid (newDays.filter chatAccepts) day chatDoc hmem hnd f).trans
        (by rw [hf])
    · intro v hv
      rw [hb]
      exact (merged_map_effect st pid (newDays.filter chatAccepts) day chatDoc hmem hnd paKey).trans
        (by rw [hv])

/-- Witness for C1, on the specification's merge example: after the chat
proposal `{date:"2025-02-01", plannedActivity:"Tempo"}` is applied over the
stored day log, `plannedActivity` is `"Tempo"` and the logged `activities`
(with `actualDistance = "5"`) survive unchanged. -/
theorem merge_upsert_preserves_stored_fields_witness :
    docField (applyBatch exampleStore (buildChatBatch "p1".data [tempoProposal]))
        (DocRef.day "p1".data "2025-02-01".data) paKey = some (Json.str "Tempo".data) ∧
    docField (applyBatch exampleStore (buildChatBatch "p1".data [tempoProposal]))
        (DocRef.day "p1".data "2025-02-01".data) "activities".data
      = some storedActivities := by
  have hfilter : [tempoProposal].filter chatAccepts = [tempoProposal] := rfl
  have hmem : tempoProposal ∈ [tempoProposal].filter chatAccepts := by
    rw [hfilter]
    exact List.mem_cons_self _ _
  have hnd : (([tempoProposal].filter chatAccepts).map keyOf).Nodup := by
    rw [hfilter]
    exact List.nodup_singleton _
  have hc := merge_upsert_preserves_stored_fields.2 exampleStore "p1".data
    [tempoProposal] tempoProposal hmem hnd
  have hk : keyOf tempoProposal = "2025-02-01".data := rfl
  constructor
  · have hset := hc.2 (Json.str "Tempo".data) rfl
    rw [hk] at hset
    exact hset
  · have hkeep := hc.1 "activities".data rfl
    rw [hk] at hkeep
    exact hkeep.trans rfl

/-- C10: the upsert issued by the chat mutation path carries exactly the
two fields `date` and `plannedActivity`: any other field of the proposed
record is discarded before the write, so after the chat batch every other
field of every stored document is exactly what it was before. -/
theorem chat_upsert_exact_fields :
    (∀ day : Json,
      chatDoc day dateKey = getField day dateKey ∧
      chatDoc day paKey = getField day paKey ∧
      ∀ f : List Char, f ≠ dateKey → f ≠ paKey → chatDoc day f = none) ∧
    (∀ (st : Store) (pid : List Char) (newDays : List Json) (ref : DocRef) (f : List Char),
      f ≠ dateKey → f ≠ paKey →
      docField (applyBatch st (buildChatBatch pid newDays)) ref f = docField st ref f) := by
  constructor
  · intro day
    refine ⟨?_, ?_, ?_⟩
    · unfold chatDoc
      rw [if_pos rfl]
    · unfold chatDoc
      rw [if_neg (by decide), if_pos rfl]
    · intro f h1 h2
      unfold chatDoc
      rw [if_neg h1, if_neg h2]
  · intro st pid newDays ref f h1 h2
    unfold buildChatBatch
    rw [foldl_append_filter_map chatAccepts
      (fun d => WriteOp.setMerge (DocRef.day pid (keyOf d)) (chatDoc d)) newDays []]
    rw [List.nil_append]
    exact chat_ops_frame pid ref f h1 h2 (newDays.filter chatAccepts) st

/-- Witness for C10: a chat-proposed record carrying `activities`, `rpe`
and `coachFeedback` produces a payload with none of them, and applying the
batch leaves the stored `activities` value untouched. -/
theorem chat_upsert_exact_fields_witness :
    chatDoc extraFieldsDay "activities".data = none ∧
    chatDoc extraFieldsDay "coachFeedback".data = none ∧
    docField (applyBatch exampleStore (buildChatBatch "p1".data [extraFieldsDay]))
        (DocRef.day "p1".data "2025-02-01".data) "activities".data
      = some storedActivities := by
  refine ⟨(chat_upsert_exact_fields.1 extraFieldsDay).2.2 "activities".data
      (by decide) (by decide),
    (chat_upsert_exact_fields.1 extraFieldsDay).2.2 "coachFeedback".data
      (by decide) (by decide), ?_⟩
  have hf := chat_upsert_exact_fields.2 exampleStore "p1".data [extraFieldsDay]
    (DocRef.day "p1".data "2025-02-01".data) "activities".data (by decide) (by decide)
  exact hf.trans rfl

section

attribute [local semireducible] Rat.add Rat.mul Rat.inv Rat.sub

/-- C9 (amended): the record saved by the log form's submit handler, on a
non-empty session list, carries mirror fields computed as: `actualDistance`
is the sum of the sessions' parsed distances rendered to one decimal when
that sum is positive, and otherwise the first session's raw distance
string; `rpe` is the maximum RPE across sessions (an unset RPE counting as
the default 5); `feeling` is the sessions' non-empty notes joined with the
separator. -/
theorem legacy_mirror_projection (activities : List ActivityForm)
    (coachFeedback : List Char) (h : activities ≠ []) :
    (0 < sumParsedDistances activities →
      (logSubmit activities coachFeedback).actualDistance
        = toFixed1 (sumParsedDistances activities)) ∧
    (¬ 0 < sumParsedDistances activities →
      (logSubmit activities coachFeedback).actualDistance
        = (activities.headD defaultActivity).actualDistance) ∧
    (logSubmit activities coachFeedback).rpe = maxSessionRpe activities ∧
    (logSubmit activities coachFeedback).feeling = joinedNotes activities := by
  have htd : activities.foldl (fun acc a => acc + toNum a.actualDistance) 0
      = sumParsedDistances activities := by
    rw [foldl_add_toNum, zero_add]
  refine ⟨?_, ?_, ?_, rfl⟩
  · intro hpos
    unfold logSubmit
    dsimp only []
    rw [htd, if_pos hpos]
  · intro hneg
    unfold logSubmit
    dsimp only []
    rw [htd, if_neg hneg]
  · unfold logSubmit maxSessionRpe
    dsimp only []
    rw [foldl_max_shift, max_eq_right (Nat.zero_le _)]

/-- Witness for C9 (amended): two sessions of 5 km and 2.5 km with RPE 6
and 7 and one note store `actualDistance = "7.5"`, `rpe = 7`,
`feeling = "good"`. -/
theorem legacy_mirror_projection_witness :
    (0 < sumParsedDistances exampleSessions) ∧
    (logSubmit exampleSessions []).actualDistance = "7.5".data ∧
    (logSubmit exampleSessions []).rpe = 7 ∧
    (logSubmit exampleSessions []).feeling = "good".data := by
  have h := legacy_mirror_projection exampleSessions [] (by decide)
  refine ⟨by decide, ?_, ?_, ?_⟩
  · exact (h.1 (by decide)).trans (by decide)
  · exact h.2.2.1.trans (by decide)
  · exact h.2.2.2.trans (by decide)

/-- Counterexample to C9 as stated: a saved log whose two sessions have
non-numeric distance strings stores `actualDistance = "abc"` — the first
session's raw string — while the sum of the sessions' parsed distances is
`0`; the stored mirror is not that sum (it is not even numeric), so the
stored mirrors are not the pure sum/max/join projection the claim
describes. -/
theorem legacy_mirror_not_sum_counterexample :
    (logSubmit unparsedSessions []).actualDistance = "abc".data ∧
    sumParsedDistances unparsedSessions = 0 ∧
    parseFloatQ "abc".data = none := by
  exact ⟨by decide, by decide, rfl⟩

end

/-- C2 (amended): for every assistant chat reply, the reply is scanned for
the first delimiter pair; with no pair the reply is displayed unchanged and
nothing is applied; with a pair whose captured block is empty the block is
ignored entirely (no parse, no annotation); with a non-empty block, a
successful parse of an array applies its records, strips the block from the
displayed reply and appends the success annotation, a parse failure leaves
the reply untouched except for the appended technical-error annotation, and
a successfully parsed non-array is ignored. -/
theorem chat_reply_update_extraction (reply : List Char) :
    (findDelimited reply = none → processReply reply = (reply, none)) ∧
    (∀ i0 i1 : Nat, findDelimited reply = some (i0, i1) →
      (innerOf reply i0 i1 = [] → processReply reply = (reply, none)) ∧
      (innerOf reply i0 i1 ≠ [] →
        (∀ l : List Json, jsonParse (trimStr (innerOf reply i0 i1)) = some (Json.arr l) →
          processReply reply
            = (trimStr (reply.take i0 ++ reply.drop (i1 + 17)) ++ successMsg, some l)) ∧
        (jsonParse (trimStr (innerOf reply i0 i1)) = none →
          processReply reply = (reply ++ techErrMsg, none)) ∧
        (∀ j : Json, jsonParse (trimStr (innerOf reply i0 i1)) = some j →
          (∀ l : List Json, j ≠ Json.arr l) → processReply reply = (reply, none)))) := by
  constructor
  · intro h
    unfold processReply
    rw [h]
  · intro i0 i1 h
    constructor
    · intro hinner
      unfold processReply
      rw [h]
      dsimp only []
      rw [if_pos (by rw [hinner]; rfl)]
    · intro hne
      have hempty : ¬ (innerOf reply i0 i1).isEmpty = true := by
        cases hin : innerOf reply i0 i1 with
        | nil => exact absurd hin hne
        | cons a b => simp
      refine ⟨?_, ?_, ?_⟩
      · intro l hp
        unfold processReply
        rw [h]
        dsimp only []
        rw [if_neg hempty, hp]
        dsimp only []
        rw [removeFirst_block h]
      · intro hp
        unfold processReply
        rw [h]
        dsimp only []
        rw [if_neg hempty, hp]
      · intro j hp hja
        unfold processReply
        rw [h]
        dsimp only []
        rw [if_neg hempty, hp]
        cases j with
        | arr l => exact absurd rfl (hja l)
        | null => rfl
        | bool b => rfl
        | num q => rfl
        | str s => rfl
        | obj kvs => rfl

/-- Witness for C2, on the specification's round-trip reply: exactly one
mutation record is extracted, and the displayed reply is the prose with the
delimiter block gone and the success annotation appended. -/
theorem chat_reply_update_extraction_witness :
    processReply exampleReply
      = ("Sure, updating.".data ++ successMsg, some [exampleMutation]) := by
  have h := (chat_reply_update_extraction exampleReply).2 16 81 rfl
  have h2 := (h.2 (by decide)).1 [exampleMutation] rfl
  exact h2.trans (by rfl)

/-- Counterexample to C2 as stated: a reply whose delimiter pair encloses
an empty block.  The pair is found and the (trimmed, empty) block fails
JSON parsing, yet the code skips the block entirely — the displayed reply
is unchanged and no technical-error annotation is appended, contrary to the
claim's parse-failure clause. -/
theorem chat_empty_block_counterexample :
    findDelimited emptyBlockReply = some (1, 18) ∧
    innerOf emptyBlockReply 1 18 = [] ∧
    jsonParse (trimStr (innerOf emptyBlockReply 1 18)) = none ∧
    processReply emptyBlockReply = (emptyBlockReply, none) ∧
    emptyBlockReply ++ techErrMsg ≠ emptyBlockReply := by
  exact ⟨rfl, rfl, rfl, rfl, by decide⟩
